import Mathlib

/-!
Verification of the PAN message-broker core described by the repository's
specification (spec.md) and its documentation (docs/LARC_SPEC.v0.md,
docs/SECURITY.md, docs/API_STABILITY.md, docs/MIGRATION_ENHANCED.md,
docs/archive/SECURITY_IMPROVEMENTS.md).

The broker implementation files themselves (core/src/components/pan-bus.mjs,
pan-bus-enhanced.mjs, pan-client.mjs, pan-validation.mjs) are not part of this
repository snapshot — only their documentation, type declarations and callers
are.  Every definition below is therefore modelled from the specification's
words, as noted in its doc comment.
-/

namespace Pan

/-- Modelled from the spec: splitting a topic string on `.` (spec.md §4.1
"Split both on `.`"); implemented over the character list since the source's
`String.prototype.split('.')` is not available. -/
def splitDotAux : List Char → List Char → List String
  | [], acc => [String.mk acc.reverse]
  | c :: cs, acc =>
    if c = '.' then String.mk acc.reverse :: splitDotAux cs []
    else splitDotAux cs (c :: acc)

/-- Modelled from the spec: the list of dot-separated segments of a topic or
pattern string. -/
def splitDot (s : String) : List String := splitDotAux s.data []

/-- Modelled from the spec: `TopicMatcher.matches(topic, pattern)`
(spec.md §4.1, docs/API_STABILITY.md "PanClient.matches"); the source file
`pan-client.mjs` / `pan-bus.mjs` holding `PanBus.matches` is missing from the
snapshot.  Pattern `*` alone matches any topic; otherwise segment counts must
be equal and each pattern segment must equal the corresponding topic segment
or be exactly `*`. -/
def topicMatches (topic pattern : String) : Bool :=
  if pattern = "*" then true
  else
    let ts := splitDot topic
    let ps := splitDot pattern
    decide (ps.length = ts.length) &&
      (ps.zip ts).all (fun pt => pt.1 = "*" || pt.1 = pt.2)

/-- C1: `matches(T, P)` is true iff P is exactly `"*"`, or P equals T, or P and
T, split on `"."`, have the same number of segments and every segment of P is
either `"*"` or equal to the corresponding topic segment. -/
theorem topicMatches_spec (T P : String) :
    topicMatches T P = true ↔
      P = "*" ∨ P = T ∨
      ((splitDot P).length = (splitDot T).length ∧
        ∀ pt ∈ (splitDot P).zip (splitDot T), pt.1 = "*" ∨ pt.1 = pt.2) := by
  unfold topicMatches
  by_cases hstar : P = "*"
  · simp [hstar]
  · simp only [hstar, if_false, Bool.and_eq_true, List.all_eq_true,
      Bool.or_eq_true, decide_eq_true_eq, false_or]
    constructor
    · rintro ⟨hlen, hall⟩
      exact Or.inr ⟨hlen, fun pt hpt => by simpa using hall pt hpt⟩
    · rintro (hPT | ⟨hlen, hall⟩)
      · subst hPT
        refine ⟨rfl, fun pt hpt => ?_⟩
        have hmem : pt.1 = pt.2 := by
          rcases List.mem_iff_get.mp hpt with ⟨i, hi⟩
          have h1 : pt.1 = (splitDot P).get ⟨i, by
            simpa [List.length_zip] using i.isLt⟩ := by
            rw [← hi]; simp [List.get_zip]
          have h2 : pt.2 = (splitDot P).get ⟨i, by
            simpa [List.length_zip] using i.isLt⟩ := by
            rw [← hi]; simp [List.get_zip]
          rw [h1, h2]
        simp [hmem]
      · exact ⟨hlen, fun pt hpt => by simpa using hall pt hpt⟩

/-- C1 witness: the theorem applied at the spec's own examples — `"users.*"`
matches `"users.list"`. -/
theorem topicMatches_spec_witness : topicMatches "users.list" "users.*" = true :=
  (topicMatches_spec "users.list" "users.*").mpr (Or.inr (Or.inr (by decide)))

/-! ### Data model: payloads, messages, validation -/

/-- Modelled from the spec: a JavaScript-like value as it sits in memory
(spec.md §3 "payload: any (structurally-serializable value)"); references into
a heap of objects let the model express cyclic values, which an inductive tree
cannot.  `func` stands for the non-data values (functions, opaque handles)
that `pan-validation.mjs`'s `checkSerializable` rejects. -/
inductive JSVal where
  | null : JSVal
  | bool (b : Bool) : JSVal
  | num (n : Int) : JSVal
  | str (s : String) : JSVal
  | func : JSVal
  | ref (addr : Nat) : JSVal
deriving Repr, DecidableEq

/-- Modelled from the spec: the object heap a payload's references point into;
object `a` is `objects[a]`, a list of named fields. -/
structure Heap where
  objects : List (List (String × JSVal))
deriving Repr, DecidableEq

/-- Modelled from the spec: a message payload — a root value together with the
heap its references live in. -/
structure Payload where
  root : JSVal
  heap : Heap
deriving Repr, DecidableEq

/-- Fields of object `a`, or `[]` when the address is dangling. -/
def Heap.fieldsOf (h : Heap) (a : Nat) : List (String × JSVal) :=
  h.objects.getD a []

/-- Addresses directly referenced by the fields of object `a`. -/
def Heap.succsOf (h : Heap) (a : Nat) : List Nat :=
  (h.fieldsOf a).filterMap (fun f =>
    match f.2 with
    | .ref b => some b
    | _ => none)

/-- One breadth step of the reference walk: add every address reachable in one
hop from the set `s`. -/
def Heap.stepSet (h : Heap) (s : List Nat) : List Nat :=
  (s ++ s.bind h.succsOf).dedup

/-- Addresses reachable from `s` in at most `n` hops. -/
def Heap.reachN (h : Heap) : Nat → List Nat → List Nat
  | 0, s => s
  | n + 1, s => h.reachN n (h.stepSet s)

/-- Addresses directly referenced by a value. -/
def JSVal.refList : JSVal → List Nat
  | .ref a => [a]
  | _ => []

/-- Modelled from the spec: the validator's cycle check — "walk the value
graph; fail on cycles" (spec.md §4.2).  An object reachable from the payload's
root lies on a cycle when it can reach itself again through at least one
reference hop. -/
def Payload.hasCycle (p : Payload) : Bool :=
  let h := p.heap
  let n := h.objects.length
  (h.reachN n p.root.refList).any (fun a => decide (a ∈ h.reachN n (h.succsOf a)))

/-- Modelled from the spec: the validator's non-data check — "fail on non-data
types (function-like, opaque native handles)" (spec.md §4.2). -/
def Payload.hasFunc (p : Payload) : Bool :=
  (match p.root with | .func => true | _ => false) ||
    (p.heap.reachN p.heap.objects.length p.root.refList).any (fun a =>
      (p.heap.fieldsOf a).any (fun f =>
        match f.2 with | .func => true | _ => false))

/-- Byte estimate of a single value, references counted shallowly. -/
def JSVal.flatSize : JSVal → Nat
  | .null => 4
  | .bool _ => 5
  | .num _ => 8
  | .str s => s.length + 2
  | .func => 0
  | .ref _ => 2

/-- Modelled from the spec: `estimateSize` from `pan-validation.mjs` — a byte
estimate of the serialized form of the payload (spec.md §4.2). -/
def Payload.estimateSize (p : Payload) : Nat :=
  p.root.flatSize +
    (p.heap.objects.map (fun obj =>
      2 + (obj.map (fun f => f.1.length + 3 + f.2.flatSize)).sum)).sum

/-- Modelled from the spec: the broker message envelope (spec.md §3
"Message", docs/API_STABILITY.md "PanMessage Format"). -/
structure Message where
  topic : String
  payload : Payload
  id : String := ""
  timestamp : Nat := 0
  retain : Bool := false
  replyTo : Option String := none
  correlationId : Option String := none
deriving Repr, DecidableEq

/-- Modelled from the spec: the administrative configuration surface with its
documented defaults (spec.md §6, SECURITY_IMPROVEMENTS.md "Configuration
Reference"). -/
structure Config where
  maxRetained : Nat := 1000
  maxMessageSize : Nat := 1048576
  maxPayloadSize : Nat := 524288
  rateLimit : Nat := 1000
  rateLimitWindowMs : Nat := 1000
  cleanupIntervalMs : Nat := 30000
  allowGlobalWildcard : Bool := true
deriving Repr, DecidableEq

/-- Modelled from the spec: the validation error kinds (spec.md §4.2). -/
inductive ValidationError where
  | EmptyTopic : ValidationError
  | ReservedTopic : ValidationError
  | NotSerializable : ValidationError
  | CyclicReference : ValidationError
  | PayloadTooLarge : ValidationError
  | MessageTooLarge : ValidationError
deriving Repr, DecidableEq

/-- Byte estimate of the whole message including metadata. -/
def messageSize (m : Message) : Nat :=
  m.payload.estimateSize + m.topic.length + m.id.length + 16

/-- Does `s` start with `pre`?  Implemented over the character lists. -/
def strStartsWith (s pre : String) : Bool :=
  pre.data.isPrefixOf s.data

/-- Modelled from the spec: `MessageValidator.validate` (spec.md §4.2); the
checks in the spec's order — topic shape first, then the serializability walk
(cycles, then non-data values), then the size bounds. -/
def validate (cfg : Config) (m : Message) : Option ValidationError :=
  if m.topic = "" then some .EmptyTopic
  else if strStartsWith m.topic "pan:" then some .ReservedTopic
  else if m.payload.hasCycle then some .CyclicReference
  else if m.payload.hasFunc then some .NotSerializable
  else if cfg.maxPayloadSize < m.payload.estimateSize then some .PayloadTooLarge
  else if cfg.maxMessageSize < messageSize m then some .MessageTooLarge
  else none

/-! ### RetainedStore -/

/-- Modelled from the spec: the bounded last-value store with LRU eviction
(spec.md §3 "RetainedEntry", §4.3).  `entries` is kept in recency order,
least-recently-touched first; at most one entry per topic. -/
structure RetainedStore where
  entries : List (String × Message)
  maxRetained : Nat
  evicted : Nat
deriving Repr, DecidableEq

/-- Empty store of the given capacity. -/
def RetainedStore.emptyStore (cap : Nat) : RetainedStore :=
  { entries := [], maxRetained := cap, evicted := 0 }

/-- Modelled from the spec: `set(topic, message)` — insert or replace (the
touched entry moves to the most-recent end); if the size then exceeds
`maxRetained`, evict the least-recently-touched entry and bump the eviction
counter (spec.md §4.3). -/
def RetainedStore.set (s : RetainedStore) (t : String) (m : Message) :
    RetainedStore :=
  let appended := s.entries.filter (fun e => decide (e.1 ≠ t)) ++ [(t, m)]
  if s.maxRetained < appended.length then
    { s with entries := appended.tail, evicted := s.evicted + 1 }
  else
    { s with entries := appended }

/-- Modelled from the spec: `get(topic)` (spec.md §4.3). -/
def RetainedStore.get (s : RetainedStore) (t : String) : Option Message :=
  (s.entries.find? (fun e => decide (e.1 = t))).map (·.2)

/-- Modelled from the spec: `replayMatching(patterns)` — the entries whose
topic matches one of the patterns, in store order; reading them touches their
recency, moving them to the most-recent end (spec.md §4.3). -/
def RetainedStore.replayMatching (s : RetainedStore) (pats : List String) :
    List (String × Message) × RetainedStore :=
  let hit := s.entries.filter (fun e => pats.any (fun p => topicMatches e.1 p))
  let rest := s.entries.filter (fun e => !(pats.any (fun p => topicMatches e.1 p)))
  (hit, { s with entries := rest ++ hit })

/-- Modelled from the spec: `clear(pattern?)` — remove the entries matching
the pattern, or all entries when the pattern is omitted (spec.md §4.3). -/
def RetainedStore.clear (s : RetainedStore) (pat : Option String) :
    RetainedStore :=
  match pat with
  | some p => { s with entries := s.entries.filter (fun e => !(topicMatches e.1 p)) }
  | none => { s with entries := [] }

/-- Filtering out a topic that does not occur leaves the entries unchanged. -/
theorem filter_ne_topic_of_not_mem (l : List (String × Message)) (t : String)
    (h : t ∉ l.map Prod.fst) :
    l.filter (fun e => decide (e.1 ≠ t)) = l := by
  rw [List.filter_eq_self]
  intro e he
  simp only [decide_eq_true_eq]
  intro heq
  exact h (heq ▸ List.mem_map_of_mem Prod.fst he)

/-- Invariant of folding `set` over fresh topics: the store holds exactly the
most recently set suffix of capacity many entries, and the eviction counter
counts the overflow. -/
theorem set_foldl_inv (cap : Nat) (hcap : 1 ≤ cap)
    (todo : List (String × Message)) :
    ∀ (done : List (String × Message)) (s : RetainedStore),
      ((done ++ todo).map Prod.fst).Nodup →
      s.maxRetained = cap →
      s.entries = done.drop (done.length - cap) →
      s.evicted = done.length - cap →
      (todo.foldl (fun acc tm => acc.set tm.1 tm.2) s).entries
          = (done ++ todo).drop ((done ++ todo).length - cap) ∧
        (todo.foldl (fun acc tm => acc.set tm.1 tm.2) s).evicted
          = (done ++ todo).length - cap ∧
        (todo.foldl (fun acc tm => acc.set tm.1 tm.2) s).maxRetained = cap := by
  induction todo with
  | nil =>
    intro done s hnd hm he hv
    simp only [List.foldl_nil, List.append_nil]
    exact ⟨he, hv, hm⟩
  | cons tm rest ih =>
    intro done s hnd hm he hv
    obtain ⟨t, m⟩ := tm
    obtain ⟨ents, mr, ev⟩ := s
    simp only at hm he hv
    subst hm he hv
    -- the incoming topic is fresh: it occurs in the right part of the Nodup append
    have hfresh : t ∉ done.map Prod.fst := by
      rw [List.map_append] at hnd
      have hdisj := (List.nodup_append.mp hnd).2.2
      intro hmem
      exact hdisj hmem (by simp)
    have hfresh' : t ∉ (done.drop (done.length - mr)).map Prod.fst := by
      intro hmem
      rcases List.mem_map.mp hmem with ⟨e, heMem, heEq⟩
      exact hfresh (heEq ▸ List.mem_map_of_mem Prod.fst (List.mem_of_mem_drop heMem))
    have hfilter := filter_ne_topic_of_not_mem (done.drop (done.length - mr)) t hfresh'
    have hstep :
        ((RetainedStore.mk (done.drop (done.length - mr)) mr
            (done.length - mr)).set t m).entries
          = (done ++ [(t, m)]).drop ((done.length + 1) - mr) ∧
        ((RetainedStore.mk (done.drop (done.length - mr)) mr
            (done.length - mr)).set t m).evicted = (done.length + 1) - mr ∧
        ((RetainedStore.mk (done.drop (done.length - mr)) mr
            (done.length - mr)).set t m).maxRetained = mr := by
      unfold RetainedStore.set
      simp only [hfilter]
      by_cases hover : mr ≤ done.length
      · -- the store is full: the least-recently-touched head is evicted
        have hlen : (done.drop (done.length - mr)).length = mr := by
          rw [List.length_drop]; omega
        have hpos : done.drop (done.length - mr) ≠ [] := by
          intro hnil; rw [hnil] at hlen; simp at hlen; omega
        have hcond : mr < (done.drop (done.length - mr) ++ [(t, m)]).length := by
          rw [List.length_append, hlen]; simp
        simp only [if_pos hcond]
        refine ⟨?_, ?_, trivial⟩
        · show (done.drop (done.length - mr) ++ [(t, m)]).tail = _
          have hle : done.length + 1 - mr ≤ done.length := by omega
          have hidx : done.length - mr + 1 = done.length + 1 - mr := by omega
          rw [List.tail_append_of_ne_nil hpos, ← List.drop_one, List.drop_drop,
            hidx, List.drop_append_of_le_length hle]
        · show done.length - mr + 1 = done.length + 1 - mr
          omega
      · -- still under capacity: no eviction
        push_neg at hover
        have hunder : done.length - mr = 0 := by omega
        rw [hunder, List.drop_zero] at hfilter ⊢
        have hcond : ¬ mr < (done ++ [(t, m)]).length := by
          rw [List.length_append]; simp; omega
        simp only [if_neg hcond]
        have hz : done.length + 1 - mr = 0 := by omega
        rw [hz, List.drop_zero]
        exact ⟨rfl, by omega, trivial⟩
    have hnd' : (((done ++ [(t, m)]) ++ rest).map Prod.fst).Nodup := by
      rw [List.append_assoc]; simpa using hnd
    have hrec := ih (done ++ [(t, m)]) _ hnd' hstep.2.2
      (by rw [hstep.1]; simp) (by rw [hstep.2.1]; simp)
    simpa [List.append_assoc] using hrec

/-- C2: starting from an empty `RetainedStore` of capacity `maxRetained ≥ 1`,
after `N > maxRetained` sets on pairwise-distinct topics the store holds
exactly `maxRetained` entries, the eviction counter equals `N - maxRetained`,
and the surviving entries are exactly the `maxRetained` most recently touched
ones — each eviction removed the least-recently-touched entry. -/
theorem retainedStore_lru_bound (cap : Nat) (hcap : 1 ≤ cap)
    (items : List (String × Message))
    (hdist : (items.map Prod.fst).Nodup)
    (hN : cap < items.length) :
    (items.foldl (fun s tm => s.set tm.1 tm.2)
        (RetainedStore.emptyStore cap)).entries.length = cap ∧
      (items.foldl (fun s tm => s.set tm.1 tm.2)
        (RetainedStore.emptyStore cap)).evicted = items.length - cap ∧
      (items.foldl (fun s tm => s.set tm.1 tm.2)
        (RetainedStore.emptyStore cap)).entries
        = items.drop (items.length - cap) := by
  have h := set_foldl_inv cap hcap items [] (RetainedStore.emptyStore cap)
    (by simpa using hdist) rfl (by simp [RetainedStore.emptyStore])
    (by simp [RetainedStore.emptyStore])
  simp only [List.nil_append] at h
  refine ⟨?_, h.2.1, h.1⟩
  rw [h.1, List.length_drop]
  omega

/-- C2 witness: the theorem applied to capacity 1 and two distinct topics. -/
theorem retainedStore_lru_bound_witness :
    (1 ≤ 1 ∧
      (([("a", ({ topic := "a", payload := ⟨.null, ⟨[]⟩⟩ } : Message)),
         ("b", ({ topic := "b", payload := ⟨.null, ⟨[]⟩⟩ } : Message))].map
          Prod.fst).Nodup) ∧
      1 < 2) ∧
    ([("a", ({ topic := "a", payload := ⟨.null, ⟨[]⟩⟩ } : Message)),
      ("b", ({ topic := "b", payload := ⟨.null, ⟨[]⟩⟩ } : Message))].foldl
        (fun s tm => s.set tm.1 tm.2)
        (RetainedStore.emptyStore 1)).entries.length = 1 :=
  ⟨⟨by decide, by decide, by decide⟩,
    (retainedStore_lru_bound 1 (by decide) _ (by decide) (by decide)).1⟩

/-! ### Subscriptions, rate limiting and the broker -/

/-- Modelled from the spec: a registered subscription (spec.md §3
"Subscription"); the injected liveness check is supplied to `sweepDead` as a
predicate rather than stored as a closure. -/
structure Subscription where
  sid : Nat
  patterns : List String
  wantsRetained : Bool
deriving Repr, DecidableEq

/-- Modelled from the spec: the per-publisher fixed rate window (spec.md §3
"RateWindow"). -/
structure RateWindow where
  windowStart : Nat
  count : Nat
deriving Repr, DecidableEq

/-- Modelled from the spec: an event on the `pan:sys.error` observability
channel — `{ code, message, details }` (spec.md §6); the validation kind
stands in for the details field. -/
structure ErrorEvent where
  code : String
  kind : Option ValidationError
deriving Repr, DecidableEq

/-- Modelled from the spec: a subscribe-time rejection
(`SubscriptionRejected{reason: GlobalWildcardDisabled}`, spec.md §4.5). -/
inductive SubscribeError where
  | GlobalWildcardDisabled : SubscribeError
deriving Repr, DecidableEq

/-- Modelled from the spec: the broker (`DeliveryEngine` plus the state it
owns, spec.md §4.7 and §3); `deliveries` is the log of `(subscriber, message)`
pairs handed to the transport adapter, in delivery order. -/
structure Broker where
  config : Config
  store : RetainedStore
  subs : List Subscription
  nextSid : Nat
  rate : List (String × RateWindow)
  published : Nat
  delivered : Nat
  dropped : Nat
  errorCount : Nat
  errors : List ErrorEvent
  deliveries : List (Nat × Message)
deriving Repr, DecidableEq

/-- Fresh broker with the given configuration. -/
def Broker.init (cfg : Config) : Broker :=
  { config := cfg, store := RetainedStore.emptyStore cfg.maxRetained,
    subs := [], nextSid := 0, rate := [], published := 0, delivered := 0,
    dropped := 0, errorCount := 0, errors := [], deliveries := [] }

/-- Rate window currently tracked for a publisher. -/
def lookupRate (ws : List (String × RateWindow)) (pid : String) :
    Option RateWindow :=
  (ws.find? (fun e => decide (e.1 = pid))).map (·.2)

/-- Replace (or insert) a publisher's rate window. -/
def setRate (ws : List (String × RateWindow)) (pid : String) (w : RateWindow) :
    List (String × RateWindow) :=
  ws.filter (fun e => decide (e.1 ≠ pid)) ++ [(pid, w)]

/-- Modelled from the spec: `RateLimiter.admit(publisherId, now)` (spec.md
§4.4) — fixed window of length `rateLimitWindowMs`; on rollover the count
resets to zero; returns false (drop) once `rateLimit` is exceeded within the
current window.  Returns the updated window table and the decision. -/
def Broker.admitNow (b : Broker) (pid : String) (now : Nat) :
    List (String × RateWindow) × Bool :=
  let w0 : RateWindow :=
    match lookupRate b.rate pid with
    | none => ⟨now, 0⟩
    | some w =>
      if w.windowStart + b.config.rateLimitWindowMs ≤ now then ⟨now, 0⟩ else w
  if w0.count < b.config.rateLimit then
    (setRate b.rate pid ⟨w0.windowStart, w0.count + 1⟩, true)
  else
    (setRate b.rate pid w0, false)

/-- Subscriptions whose pattern set matches the topic. -/
def Broker.matchingSubs (b : Broker) (t : String) : List Subscription :=
  b.subs.filter (fun s => s.patterns.any (fun p => topicMatches t p))

/-- Modelled from the spec: `SubscriptionRegistry.matchAll(topic)` (spec.md
§4.5). -/
def Broker.matchAll (b : Broker) (t : String) : List Nat :=
  (b.matchingSubs t).map (·.sid)

/-- Modelled from the spec: the reserved broker-internal control and
diagnostics topics (docs/LARC_SPEC.v0.md §5 "Reserved prefixes: `pan:$` for
control/meta; `pan:sys.*` for bus diagnostics", §14). -/
def reservedControlTopics : List String :=
  ["pan:sys.ready", "pan:sys.stats", "pan:sys.error", "pan:sys.clear-retained",
    "pan:$"]

/-- Optional `pattern` field of a payload whose root is an object, as read by
the `pan:sys.clear-retained` handler. -/
def Payload.patternField (p : Payload) : Option String :=
  match p.root with
  | .ref a =>
    (p.heap.fieldsOf a).findSome? (fun f =>
      if f.1 = "pattern" then
        match f.2 with
        | .str s => some s
        | _ => none
      else none)
  | _ => none

/-- Stats snapshot, encoded as an ordinary message on `pan:sys.stats`
(SECURITY.md "Monitoring Memory Usage", spec.md §6). -/
def Broker.statsMessage (b : Broker) : Message :=
  { topic := "pan:sys.stats",
    payload :=
      ⟨.ref 0,
        ⟨[[("published", .num b.published), ("delivered", .num b.delivered),
           ("dropped", .num b.dropped),
           ("retained", .num b.store.entries.length),
           ("retainedEvicted", .num b.store.evicted),
           ("subscriptions", .num b.subs.length),
           ("errors", .num b.errorCount)]]⟩⟩ }

/-- Modelled from the spec: a `pan:sys.stats` request — the snapshot is
delivered as a message on the same topic to its subscribers (SECURITY.md
"Monitoring Memory Usage"). -/
def Broker.handleStats (b : Broker) : Broker :=
  let m := b.statsMessage
  let ms := b.matchingSubs "pan:sys.stats"
  { b with deliveries := b.deliveries ++ ms.map (fun s => (s.sid, m)),
           delivered := b.delivered + ms.length }

/-- Modelled from the spec: a `pan:sys.clear-retained` request — remove the
retained entries matching the message's `pattern` field, or all entries when
no pattern is given (SECURITY.md "Emergency Shutdown"). -/
def Broker.handleClearRetained (b : Broker) (msg : Message) : Broker :=
  { b with store := b.store.clear msg.payload.patternField }

/-- Report a validation failure on the error channel (spec.md §4.7: reject
and report, no partial effects). -/
def Broker.reportInvalid (b : Broker) (e : ValidationError) : Broker :=
  { b with errors := b.errors ++ [⟨"MESSAGE_INVALID", some e⟩],
           errorCount := b.errorCount + 1 }

/-- Modelled from the spec: `DeliveryEngine.publish` (spec.md §4.7) —
control topics are served by the broker itself; otherwise validate (reject +
report on failure), admit through the rate limiter (drop + report on
failure), update the retained store when `retain` is set, then deliver to
every matching subscription and update the counters. -/
def Broker.publish (b : Broker) (pid : String) (now : Nat) (msg : Message) :
    Broker :=
  if msg.topic = "pan:sys.stats" then b.handleStats
  else if msg.topic = "pan:sys.clear-retained" then b.handleClearRetained msg
  else
    match validate b.config msg with
    | some e => b.reportInvalid e
    | none =>
      match b.admitNow pid now with
      | (rate1, false) =>
        { b with rate := rate1, dropped := b.dropped + 1,
                 errors := b.errors ++ [⟨"RATE_LIMIT_EXCEEDED", none⟩],
                 errorCount := b.errorCount + 1 }
      | (rate1, true) =>
        let store1 := if msg.retain then b.store.set msg.topic msg else b.store
        let ms := b.matchingSubs msg.topic
        { b with rate := rate1, store := store1,
                 published := b.published + 1,
                 delivered := b.delivered + ms.length,
                 deliveries := b.deliveries ++ ms.map (fun s => (s.sid, msg)) }

/-- Modelled from the spec: `subscribe(patterns, handler, opts)` (spec.md
§4.5) — a global-wildcard pattern is rejected up front when the policy flag
forbids it; otherwise the retained replay (when `wantsRetained`) is resolved
synchronously, before the subscription is appended to the live delivery
set. -/
def Broker.subscribe (b : Broker) (patterns : List String)
    (wantsRetained : Bool) : Broker × Except SubscribeError Nat :=
  if !b.config.allowGlobalWildcard && patterns.contains "*" then
    (b, .error .GlobalWildcardDisabled)
  else
    let sid := b.nextSid
    let rep : List (String × Message) × RetainedStore :=
      if wantsRetained then b.store.replayMatching patterns else ([], b.store)
    let b1 := { b with store := rep.2,
                       deliveries := b.deliveries ++
                         rep.1.map (fun (e : String × Message) => (sid, e.2)),
                       delivered := b.delivered + rep.1.length }
    ({ b1 with subs := b1.subs ++ [⟨sid, patterns, wantsRetained⟩],
               nextSid := sid + 1 }, .ok sid)

/-- Modelled from the spec: `unsubscribe(SubscriptionId)` — idempotent
removal (spec.md §4.5). -/
def Broker.unsubscribe (b : Broker) (sid : Nat) : Broker :=
  { b with subs := b.subs.filter (fun s => decide (s.sid ≠ sid)) }

/-- Modelled from the spec: `sweepDead()` (spec.md §4.5) — invoke each
subscription's injected liveness check and drop the subscriptions whose
owning context reports destroyed. -/
def Broker.sweepDead (b : Broker) (alive : Subscription → Bool) : Broker :=
  { b with subs := b.subs.filter alive }

/-- Messages handed to the transport adapter for one subscriber, in order. -/
def Broker.deliveredTo (b : Broker) (sid : Nat) : List Message :=
  (b.deliveries.filter (fun d => decide (d.1 = sid))).map (·.2)

/-- Well-formedness of a broker state: subscription ids and logged delivery
targets are below the id counter, and the retained store holds at most one
entry per topic. -/
def Broker.Wf (b : Broker) : Prop :=
  (∀ s ∈ b.subs, s.sid < b.nextSid) ∧
  (∀ d ∈ b.deliveries, d.1 < b.nextSid) ∧
  (b.store.entries.map Prod.fst).Nodup ∧
  (∀ e ∈ b.store.entries, e.2.topic = e.1)

/-! ### Subscription policy, sweeping, and publish rejection -/

/-- C7: with `allowGlobalWildcard = false` a subscribe whose pattern set
contains the global wildcard `"*"` is rejected synchronously with
`GlobalWildcardDisabled` and registers nothing; a pattern set without the
global wildcard (such as `["users.*"]`) is still accepted under the same
configuration, and with `allowGlobalWildcard = true` the global-wildcard
subscribe succeeds. -/
theorem subscribe_wildcard_policy (b : Broker) (patterns : List String)
    (w : Bool) :
    (b.config.allowGlobalWildcard = false → "*" ∈ patterns →
      (b.subscribe patterns w).2 = .error .GlobalWildcardDisabled ∧
      (b.subscribe patterns w).1 = b) ∧
    ("*" ∉ patterns →
      (b.subscribe patterns w).2 = .ok b.nextSid ∧
      (⟨b.nextSid, patterns, w⟩ : Subscription) ∈ (b.subscribe patterns w).1.subs) ∧
    (b.config.allowGlobalWildcard = true →
      (b.subscribe patterns w).2 = .ok b.nextSid ∧
      (⟨b.nextSid, patterns, w⟩ : Subscription) ∈ (b.subscribe patterns w).1.subs) := by
  refine ⟨?_, ?_, ?_⟩
  · intro hcfg hmem
    constructor <;> simp [Broker.subscribe, hcfg, hmem]
  · intro hmem
    constructor <;> simp [Broker.subscribe, hmem]
  · intro hcfg
    constructor <;> simp [Broker.subscribe, hcfg]

/-- C7 witness: on a broker configured with `allowGlobalWildcard := false`,
subscribing to `["*"]` is rejected and subscribing to `["users.*"]` is
accepted. -/
theorem subscribe_wildcard_policy_witness :
    ((Broker.init { allowGlobalWildcard := false }).subscribe ["*"] false).2
        = .error .GlobalWildcardDisabled ∧
    ((Broker.init { allowGlobalWildcard := false }).subscribe ["users.*"]
        false).2 = .ok 0 :=
  ⟨((subscribe_wildcard_policy (Broker.init { allowGlobalWildcard := false })
      ["*"] false).1 rfl (by decide)).1,
   ((subscribe_wildcard_policy (Broker.init { allowGlobalWildcard := false })
      ["users.*"] false).2.1 (by decide)).1⟩

/-- C8: after one `sweepDead` cycle every remaining subscription's liveness
check reported true at sweep time, and a registered subscription whose check
reports false is removed and no longer appears in `matchAll` results for any
topic. -/
theorem sweepDead_reclaims (b : Broker) (alive : Subscription → Bool)
    (s : Subscription) (hids : (b.subs.map Subscription.sid).Nodup)
    (hmem : s ∈ b.subs) (hdead : alive s = false) :
    (∀ s' ∈ (b.sweepDead alive).subs, alive s' = true) ∧
    s ∉ (b.sweepDead alive).subs ∧
    (∀ t, s.sid ∉ (b.sweepDead alive).matchAll t) := by
  have hinj := List.inj_on_of_nodup_map hids
  refine ⟨?_, ?_, ?_⟩
  · intro s' hs'
    exact (List.mem_filter.mp hs').2
  · intro hs
    have := (List.mem_filter.mp hs).2
    rw [hdead] at this
    exact Bool.false_ne_true this
  · intro t hsid
    unfold Broker.matchAll Broker.matchingSubs Broker.sweepDead at hsid
    simp only [List.mem_map] at hsid
    obtain ⟨s', hs', heq⟩ := hsid
    have hs'f := List.mem_filter.mp hs'
    have hs'a := List.mem_filter.mp hs'f.1
    have : s' = s := hinj hs'a.1 hmem heq
    rw [this, hdead] at hs'a
    exact Bool.false_ne_true hs'a.2

/-- C8 witness: a single dead subscription is gone after the sweep. -/
theorem sweepDead_reclaims_witness :
    (⟨0, ["a.*"], false⟩ : Subscription) ∉
      (({ Broker.init {} with subs := [⟨0, ["a.*"], false⟩], nextSid := 1 } :
          Broker).sweepDead (fun _ => false)).subs :=
  (sweepDead_reclaims
    ({ Broker.init {} with subs := [⟨0, ["a.*"], false⟩], nextSid := 1 })
    (fun _ => false) ⟨0, ["a.*"], false⟩ (by decide) (by decide) rfl).2.1

/-- C9: a subscribe with `wantsRetained = false` performs no retained replay:
the retained store (entries, recency order and eviction counter), all
counters, the error channel and the delivery log are unchanged; the new
subscription is appended to the registry and the new subscriber has received
nothing at registration time. -/
theorem subscribe_noReplay_frame (b : Broker) (patterns : List String)
    (hwf : b.Wf) (hacc : b.config.allowGlobalWildcard = true ∨ "*" ∉ patterns) :
    ((b.subscribe patterns false).1.store = b.store ∧
     (b.subscribe patterns false).1.published = b.published ∧
     (b.subscribe patterns false).1.delivered = b.delivered ∧
     (b.subscribe patterns false).1.dropped = b.dropped ∧
     (b.subscribe patterns false).1.errorCount = b.errorCount ∧
     (b.subscribe patterns false).1.errors = b.errors ∧
     (b.subscribe patterns false).1.deliveries = b.deliveries) ∧
    (b.subscribe patterns false).1.subs
      = b.subs ++ [⟨b.nextSid, patterns, false⟩] ∧
    (b.subscribe patterns false).1.deliveredTo b.nextSid = [] := by
  have hnil : b.deliveries.filter (fun d => decide (d.1 = b.nextSid)) = [] := by
    rw [List.filter_eq_nil]
    intro d hd
    have hlt := hwf.2.1 d hd
    simp only [decide_eq_true_eq]
    omega
  rcases hacc with h | h <;>
    refine ⟨⟨?_, ?_, ?_, ?_, ?_, ?_, ?_⟩, ?_, ?_⟩ <;>
    simp [Broker.subscribe, Broker.deliveredTo, h, hnil]

/-- C9 witness: the theorem applied to a freshly initialized broker. -/
theorem subscribe_noReplay_frame_witness :
    ((Broker.init {}).subscribe ["users.*"] false).1.deliveredTo 0 = [] :=
  (subscribe_noReplay_frame (Broker.init {}) ["users.*"]
    ⟨by simp [Broker.init], by simp [Broker.init],
      by simp [Broker.init, RetainedStore.emptyStore],
      by simp [Broker.init, RetainedStore.emptyStore]⟩
    (Or.inl rfl)).2.2

/-- C4: a publish whose payload contains a cyclic self-reference (and whose
topic is otherwise admissible) is rejected with the `CyclicReference`
validation error reported on the error channel, and nothing else changes: no
delivery occurs, the retained store is untouched even when `retain = true`,
and no counter other than the error counter moves. -/
theorem publish_cyclic_no_partial_effects (b : Broker) (pid : String)
    (now : Nat) (msg : Message) (ht : ¬ msg.topic = "")
    (hres : strStartsWith msg.topic "pan:" = false)
    (hcyc : msg.payload.hasCycle = true) :
    (b.publish pid now msg).store = b.store ∧
    (b.publish pid now msg).deliveries = b.deliveries ∧
    (b.publish pid now msg).delivered = b.delivered ∧
    (b.publish pid now msg).published = b.published ∧
    (b.publish pid now msg).dropped = b.dropped ∧
    (b.publish pid now msg).subs = b.subs ∧
    (b.publish pid now msg).rate = b.rate ∧
    (b.publish pid now msg).errors
      = b.errors ++ [⟨"MESSAGE_INVALID", some .CyclicReference⟩] ∧
    (b.publish pid now msg).errorCount = b.errorCount + 1 := by
  have h1 : msg.topic ≠ "pan:sys.stats" := by
    intro h
    rw [h] at hres
    exact (by decide : strStartsWith "pan:sys.stats" "pan:" ≠ false) hres
  have h2 : msg.topic ≠ "pan:sys.clear-retained" := by
    intro h
    rw [h] at hres
    exact (by decide : strStartsWith "pan:sys.clear-retained" "pan:" ≠ false) hres
  have hval : validate b.config msg = some .CyclicReference := by
    unfold validate
    rw [if_neg ht, if_neg (by simp [hres]), if_pos (by simp [hcyc])]
  unfold Broker.publish
  rw [if_neg h1, if_neg h2, hval]
  simp [Broker.reportInvalid]

/-- C4 witness: the theorem applied to a payload `{ self: <itself> }`
published with `retain = true`. -/
theorem publish_cyclic_no_partial_effects_witness :
    ((Broker.init {}).publish "p" 0
        { topic := "test", payload := ⟨.ref 0, ⟨[[("self", .ref 0)]]⟩⟩,
          retain := true }).store = (Broker.init {}).store :=
  (publish_cyclic_no_partial_effects (Broker.init {}) "p" 0
    { topic := "test", payload := ⟨.ref 0, ⟨[[("self", .ref 0)]]⟩⟩,
      retain := true }
    (by decide) (by decide) (by decide)).1

/-! ### Rate limiting -/

/-- Looking up the publisher just written finds the written window. -/
theorem lookupRate_setRate_self (ws : List (String × RateWindow)) (pid : String)
    (w : RateWindow) : lookupRate (setRate ws pid w) pid = some w := by
  unfold setRate lookupRate
  induction ws with
  | nil => simp
  | cons e rest ih =>
    by_cases he : e.1 = pid
    · simp [List.filter_cons, he]
    · simp [List.filter_cons, he, List.find?_cons]

/-- Writing one publisher's window leaves every other publisher's window
untouched. -/
theorem lookupRate_setRate_other (ws : List (String × RateWindow))
    (pid q : String) (w : RateWindow) (h : q ≠ pid) :
    lookupRate (setRate ws pid w) q = lookupRate ws q := by
  unfold setRate lookupRate
  induction ws with
  | nil => simp [List.find?_cons, Ne.symm h]
  | cons e rest ih =>
    by_cases he : e.1 = pid
    · rw [List.filter_cons_of_neg (by simp [he]),
        List.find?_cons_of_neg _ (by simp [he, Ne.symm h])]
      exact ih
    · rw [List.filter_cons_of_pos (by simp [he]), List.cons_append]
      by_cases heq : e.1 = q
      · rw [List.find?_cons_of_pos _ (by simp [heq]),
          List.find?_cons_of_pos _ (by simp [heq])]
      · rw [List.find?_cons_of_neg _ (by simp [heq]),
          List.find?_cons_of_neg _ (by simp [heq])]
        exact ih

/-- A message that passes validation has a non-empty, non-reserved topic. -/
theorem validate_none_topic (cfg : Config) (m : Message)
    (h : validate cfg m = none) :
    ¬ m.topic = "" ∧ strStartsWith m.topic "pan:" = false := by
  unfold validate at h
  by_cases h1 : m.topic = ""
  · rw [if_pos h1] at h; exact absurd h (by simp)
  · rw [if_neg h1] at h
    by_cases h2 : strStartsWith m.topic "pan:" = true
    · rw [if_pos h2] at h; exact absurd h (by simp)
    · exact ⟨h1, Bool.not_eq_true _ ▸ by simpa using h2⟩

/-- Invariant maintained while one publisher floods the bus at time `t0`:
after `j` of its publishes, its window counts `min j rateLimit`, the admitted
and dropped counters account for exactly the overflow, each drop has left one
`RATE_LIMIT_EXCEEDED` event on the error channel, and no other publisher's
window has moved. -/
def RateInv (b0 : Broker) (pid : String) (t0 : Nat) (b : Broker) (j : Nat) :
    Prop :=
  b.config = b0.config ∧
  lookupRate b.rate pid
    = (if j = 0 then none else some ⟨t0, min j b0.config.rateLimit⟩) ∧
  b.published = b0.published + min j b0.config.rateLimit ∧
  b.dropped = b0.dropped + (j - b0.config.rateLimit) ∧
  b.errors = b0.errors ++
    List.replicate (j - b0.config.rateLimit) ⟨"RATE_LIMIT_EXCEEDED", none⟩ ∧
  b.errorCount = b0.errorCount + (j - b0.config.rateLimit) ∧
  (∀ q, q ≠ pid → lookupRate b.rate q = lookupRate b0.rate q)

/-- One flood publish preserves the rate invariant, moving `j` to `j + 1`. -/
theorem rate_step (b0 : Broker) (pid : String) (t0 : Nat) (b : Broker) (j : Nat)
    (m : Message) (hW : 1 ≤ b0.config.rateLimitWindowMs)
    (hv : validate b0.config m = none) (hinv : RateInv b0 pid t0 b j) :
    RateInv b0 pid t0 (b.publish pid t0 m) (j + 1) := by
  obtain ⟨hcfg, hlook, hpub, hdrop, herr, hcnt, hoth⟩ := hinv
  obtain ⟨ht, hres⟩ := validate_none_topic b0.config m hv
  have h1 : m.topic ≠ "pan:sys.stats" := by
    intro h; rw [h] at hres
    exact (by decide : strStartsWith "pan:sys.stats" "pan:" ≠ false) hres
  have h2 : m.topic ≠ "pan:sys.clear-retained" := by
    intro h; rw [h] at hres
    exact (by decide : strStartsWith "pan:sys.clear-retained" "pan:" ≠ false) hres
  have hv' : validate b.config m = none := by rw [hcfg]; exact hv
  have hL : b.config.rateLimit = b0.config.rateLimit := by rw [hcfg]
  have hWin : b.config.rateLimitWindowMs = b0.config.rateLimitWindowMs := by
    rw [hcfg]
  -- the effective window seen by this publish
  have hAdmEq : b.admitNow pid t0 =
      (if min j b0.config.rateLimit < b0.config.rateLimit then
        (setRate b.rate pid ⟨t0, min j b0.config.rateLimit + 1⟩, true)
      else
        (setRate b.rate pid ⟨t0, min j b0.config.rateLimit⟩, false)) := by
    unfold Broker.admitNow
    rw [hlook]
    by_cases hj : j = 0
    · subst hj
      simp [hL]
    · rw [if_neg hj]
      have hW0 : ¬ b.config.rateLimitWindowMs = 0 := by rw [hWin]; omega
      simp [hL, hW0]
  unfold Broker.publish
  rw [if_neg h1, if_neg h2, hv']
  by_cases hcap : min j b0.config.rateLimit < b0.config.rateLimit
  · -- admitted
    rw [hAdmEq, if_pos hcap]
    have hmin : min j b0.config.rateLimit + 1 = min (j + 1) b0.config.rateLimit := by
      omega
    have hsub : j + 1 - b0.config.rateLimit = 0 := by omega
    have hsub0 : j - b0.config.rateLimit = 0 := by omega
    refine ⟨hcfg, ?_, ?_, ?_, ?_, ?_, ?_⟩
    · show lookupRate (setRate b.rate pid _) pid = _
      rw [lookupRate_setRate_self, if_neg (by omega), hmin]
    · show b.published + 1 = _
      rw [hpub]; omega
    · show b.dropped = _
      rw [hdrop, hsub, hsub0]
    · show b.errors = _
      rw [herr, hsub, hsub0]
    · show b.errorCount = _
      rw [hcnt, hsub, hsub0]
    · intro q hq
      show lookupRate (setRate b.rate pid _) q = _
      rw [lookupRate_setRate_other _ _ _ _ hq]
      exact hoth q hq
  · -- dropped: capacity exceeded within the window
    rw [hAdmEq, if_neg hcap]
    have hge : b0.config.rateLimit ≤ j := by omega
    have hmin : min j b0.config.rateLimit = b0.config.rateLimit := by omega
    have hmin' : min (j + 1) b0.config.rateLimit = b0.config.rateLimit := by
      omega
    have hsub : j + 1 - b0.config.rateLimit = (j - b0.config.rateLimit) + 1 := by
      omega
    refine ⟨hcfg, ?_, ?_, ?_, ?_, ?_, ?_⟩
    · show lookupRate (setRate b.rate pid _) pid = _
      rw [lookupRate_setRate_self, if_neg (by omega), hmin, hmin']
    · show b.published = _
      rw [hpub, hmin, hmin']
    · show b.dropped + 1 = _
      rw [hdrop, hsub]; omega
    · show b.errors ++ [⟨"RATE_LIMIT_EXCEEDED", none⟩] = _
      rw [herr, hsub, List.replicate_succ', List.append_assoc]
    · show b.errorCount + 1 = _
      rw [hcnt, hsub]; omega
    · intro q hq
      show lookupRate (setRate b.rate pid _) q = _
      rw [lookupRate_setRate_other _ _ _ _ hq]
      exact hoth q hq

/-- Folding the flood preserves the rate invariant. -/
theorem rate_fold (b0 : Broker) (pid : String) (t0 : Nat)
    (msgs : List Message) (hW : 1 ≤ b0.config.rateLimitWindowMs) :
    ∀ (b : Broker) (j : Nat), (∀ m ∈ msgs, validate b0.config m = none) →
      RateInv b0 pid t0 b j →
      RateInv b0 pid t0 (msgs.foldl (fun acc m => acc.publish pid t0 m) b)
        (j + msgs.length) := by
  induction msgs with
  | nil => intro b j _ hinv; simpa using hinv
  | cons m rest ih =>
    intro b j hval hinv
    have hstep := rate_step b0 pid t0 b j m hW (hval m (by simp)) hinv
    have := ih (b.publish pid t0 m) (j + 1)
      (fun m' hm' => hval m' (by simp [hm'])) hstep
    simpa [Nat.add_assoc, Nat.add_comm 1 rest.length] using this

/-- After a window rollover the publisher's count restarts: the next admit
succeeds and stores count 1. -/
theorem admitNow_rollover (b : Broker) (pid : String) (now : Nat) (w : RateWindow)
    (hw : lookupRate b.rate pid = some w)
    (hroll : w.windowStart + b.config.rateLimitWindowMs ≤ now)
    (hpos : 1 ≤ b.config.rateLimit) :
    b.admitNow pid now = (setRate b.rate pid ⟨now, 1⟩, true) := by
  unfold Broker.admitNow
  rw [hw]
  simp only [if_pos hroll]
  rw [if_pos (by omega)]

/-- C3: a publisher with no open window that publishes `rateLimit + K`
otherwise-valid messages at one instant (hence within one window) gets
exactly `rateLimit` of them admitted and `K` dropped, each drop leaving
exactly one `RATE_LIMIT_EXCEEDED` event on the error channel; no other
publisher's window is touched, and on window rollover the per-publisher count
restarts from zero (the next admitted publish stores count 1). -/
theorem rateLimiter_flood (b0 : Broker) (pid : String) (t0 : Nat) (K : Nat)
    (msgs : List Message) (hW : 1 ≤ b0.config.rateLimitWindowMs)
    (hnone : lookupRate b0.rate pid = none)
    (hvalid : ∀ m ∈ msgs, validate b0.config m = none)
    (hlen : msgs.length = b0.config.rateLimit + K) :
    (msgs.foldl (fun acc m => acc.publish pid t0 m) b0).published
        = b0.published + b0.config.rateLimit ∧
    (msgs.foldl (fun acc m => acc.publish pid t0 m) b0).dropped
        = b0.dropped + K ∧
    (msgs.foldl (fun acc m => acc.publish pid t0 m) b0).errors
        = b0.errors ++ List.replicate K ⟨"RATE_LIMIT_EXCEEDED", none⟩ ∧
    (∀ q, q ≠ pid →
      lookupRate (msgs.foldl (fun acc m => acc.publish pid t0 m) b0).rate q
        = lookupRate b0.rate q) ∧
    (∀ (b : Broker) (now : Nat) (w : RateWindow),
      lookupRate b.rate pid = some w →
      w.windowStart + b.config.rateLimitWindowMs ≤ now →
      1 ≤ b.config.rateLimit →
      b.admitNow pid now = (setRate b.rate pid ⟨now, 1⟩, true)) := by
  have hinv0 : RateInv b0 pid t0 b0 0 := by
    refine ⟨rfl, by simpa using hnone, by simp, by simp, by simp, by simp,
      fun q _ => rfl⟩
  have h := rate_fold b0 pid t0 msgs hW b0 0 hvalid hinv0
  rw [Nat.zero_add, hlen] at h
  obtain ⟨-, -, hpub, hdrop, herr, -, hoth⟩ := h
  have hmin : min (b0.config.rateLimit + K) b0.config.rateLimit
      = b0.config.rateLimit := by omega
  have hsub : b0.config.rateLimit + K - b0.config.rateLimit = K := by omega
  refine ⟨?_, ?_, ?_, hoth, ?_⟩
  · rw [hpub, hmin]
  · rw [hdrop, hsub]
  · rw [herr, hsub]
  · intro b now w hw hroll hpos
    exact admitNow_rollover b pid now w hw hroll hpos

/-- C3 witness: rate limit 1, two publishes from the same publisher at the
same instant — one admitted, one dropped with one error event. -/
theorem rateLimiter_flood_witness :
    ([{ topic := "t", payload := ⟨.null, ⟨[]⟩⟩ },
      { topic := "t", payload := ⟨.null, ⟨[]⟩⟩ }].foldl
        (fun acc m => acc.publish "p" 0 m)
        (Broker.init { rateLimit := 1 })).dropped = 0 + 1 :=
  (rateLimiter_flood (Broker.init { rateLimit := 1 }) "p" 0 1
    [{ topic := "t", payload := ⟨.null, ⟨[]⟩⟩ },
     { topic := "t", payload := ⟨.null, ⟨[]⟩⟩ }]
    (by decide) (by decide) (by decide) (by decide)).2.1

/-! ### Control and diagnostics topics -/

/-- C10: every broker-internal control and diagnostics topic lives under the
reserved literal prefix `"pan:"`, and the interactions are carried as
ordinary bus messages: a publish to `pan:sys.stats` delivers the stats
snapshot as a message on that same topic to its subscribers; a publish to
`pan:sys.clear-retained` with a `pattern` field removes exactly the retained
entries whose topics match that pattern, and with no pattern removes all
retained entries. -/
theorem controlTopics_reserved (b : Broker) (pid : String) (now : Nat)
    (msg : Message) :
    (∀ t ∈ reservedControlTopics, strStartsWith t "pan:" = true) ∧
    ((b.publish pid now { msg with topic := "pan:sys.stats" }).deliveries
        = b.deliveries ++ (b.matchingSubs "pan:sys.stats").map
            (fun s => (s.sid, b.statsMessage)) ∧
      b.statsMessage.topic = "pan:sys.stats") ∧
    (∀ pat, msg.topic = "pan:sys.clear-retained" →
      msg.payload.patternField = some pat →
      (b.publish pid now msg).store.entries
        = b.store.entries.filter (fun e => !(topicMatches e.1 pat))) ∧
    (msg.topic = "pan:sys.clear-retained" →
      msg.payload.patternField = none →
      (b.publish pid now msg).store.entries = []) := by
  refine ⟨by decide, ⟨?_, rfl⟩, ?_, ?_⟩
  · simp [Broker.publish, Broker.handleStats]
  · intro pat htop hpat
    have hne : msg.topic ≠ "pan:sys.stats" := by rw [htop]; decide
    unfold Broker.publish
    rw [if_neg hne, if_pos htop]
    simp [Broker.handleClearRetained, RetainedStore.clear, hpat]
  · intro htop hpat
    have hne : msg.topic ≠ "pan:sys.stats" := by rw [htop]; decide
    unfold Broker.publish
    rw [if_neg hne, if_pos htop]
    simp [Broker.handleClearRetained, RetainedStore.clear, hpat]

/-- C10 witness: clearing with pattern `"old.*"` on a store holding topics
`old.a` and `new.b` removes exactly the matching entry. -/
theorem controlTopics_reserved_witness :
    (({ Broker.init {} with store :=
        { entries :=
            [("old.a", { topic := "old.a", payload := ⟨.null, ⟨[]⟩⟩ }),
             ("new.b", { topic := "new.b", payload := ⟨.null, ⟨[]⟩⟩ })],
          maxRetained := 10, evicted := 0 } } : Broker).publish "p" 0
      { topic := "pan:sys.clear-retained",
        payload := ⟨.ref 0, ⟨[[("pattern", .str "old.*")]]⟩⟩ }).store.entries
    = [("old.a", ({ topic := "old.a", payload := ⟨.null, ⟨[]⟩⟩ } : Message)),
       ("new.b", { topic := "new.b", payload := ⟨.null, ⟨[]⟩⟩ })].filter
        (fun e => !(topicMatches e.1 "old.*")) :=
  ((controlTopics_reserved
    ({ Broker.init {} with store :=
        { entries :=
            [("old.a", { topic := "old.a", payload := ⟨.null, ⟨[]⟩⟩ }),
             ("new.b", { topic := "new.b", payload := ⟨.null, ⟨[]⟩⟩ })],
          maxRetained := 10, evicted := 0 } }) "p" 0
    { topic := "pan:sys.clear-retained",
      payload := ⟨.ref 0, ⟨[[("pattern", .str "old.*")]]⟩⟩ }).2.2.1
    "old.*" rfl (by decide))

/-! ### RequestReplyCoordinator -/

/-- Modelled from the spec: the per-request state machine
`Pending -> Resolved | TimedOut` (spec.md §4.6). -/
inductive ReqSt where
  | pending : ReqSt
  | resolvedReply (m : Message) : ReqSt
  | timedOut : ReqSt
deriving Repr, DecidableEq

/-- Modelled from the spec: the coordinator's view of one outstanding
request: its state, whether the transient reply-subscription and the
`PendingRequest` entry still exist, and the log of terminal transitions
(used to count resolutions). -/
structure RRState where
  st : ReqSt
  hasReplySub : Bool
  hasPending : Bool
  resolutions : List ReqSt
deriving Repr, DecidableEq

/-- State right after `request()` registered the `PendingRequest` and the
transient reply-subscription. -/
def initialRequest : RRState :=
  { st := .pending, hasReplySub := true, hasPending := true, resolutions := [] }

/-- An event observed by the coordinator for one request: an inbound message
on the reply topic, or the clock reaching `now`. -/
inductive RREvent where
  | reply (m : Message) : RREvent
  | tick (now : Nat) : RREvent
deriving Repr, DecidableEq

/-- Does this event resolve a request that is still pending? -/
def resolvesNow (cid : String) (deadline : Nat) : RREvent → Bool
  | .reply m => m.correlationId = some cid
  | .tick now => deadline ≤ now

/-- Modelled from the spec: the coordinator's reaction to one event
(spec.md §4.6) — a reply whose `correlationId` matches a pending entry
resolves it, cancels the deadline and removes the pending entry and the
transient subscription; deadline expiry rejects with the timeout; a request
already resolved or timed out ignores everything (duplicate replies are
ignored). -/
def rrStep (cid : String) (deadline : Nat) (s : RRState) (e : RREvent) :
    RRState :=
  match s.st, e with
  | .pending, .reply m =>
    if m.correlationId = some cid then
      { st := .resolvedReply m, hasReplySub := false, hasPending := false,
        resolutions := s.resolutions ++ [.resolvedReply m] }
    else s
  | .pending, .tick now =>
    if deadline ≤ now then
      { st := .timedOut, hasReplySub := false, hasPending := false,
        resolutions := s.resolutions ++ [.timedOut] }
    else s
  | _, _ => s

/-- Run the coordinator over a sequence of events. -/
def rrRun (cid : String) (deadline : Nat) (evts : List RREvent) (s : RRState) :
    RRState :=
  evts.foldl (rrStep cid deadline) s

/-- Terminal states absorb every further event. -/
theorem rrStep_absorb (cid : String) (deadline : Nat) (s : RRState)
    (e : RREvent) (h : s.st ≠ .pending) : rrStep cid deadline s e = s := by
  unfold rrStep
  cases hst : s.st <;> cases e <;> simp_all

/-- A run from a terminal state changes nothing. -/
theorem rrRun_absorb (cid : String) (deadline : Nat) (evts : List RREvent)
    (s : RRState) (h : s.st ≠ .pending) : rrRun cid deadline evts s = s := by
  induction evts with
  | nil => rfl
  | cons e rest ih =>
    unfold rrRun
    rw [List.foldl_cons, rrStep_absorb cid deadline s e h]
    exact ih

/-- Events that do not resolve a pending request leave the state alone. -/
theorem rrRun_nonResolving (cid : String) (deadline : Nat)
    (evts : List RREvent) (s : RRState) (hp : s.st = .pending)
    (h : ∀ e ∈ evts, resolvesNow cid deadline e = false) :
    rrRun cid deadline evts s = s := by
  induction evts with
  | nil => rfl
  | cons e rest ih =>
    have hstep : rrStep cid deadline s e = s := by
      unfold rrStep
      rw [hp]
      cases e with
      | reply m =>
        have hne : ¬ (m.correlationId = some cid) :=
          of_decide_eq_false
            (by simpa [resolvesNow] using h (.reply m) (by simp))
        simp [hne]
      | tick now =>
        have hne : ¬ (deadline ≤ now) :=
          of_decide_eq_false
            (by simpa [resolvesNow] using h (.tick now) (by simp))
        simp [hne]
    unfold rrRun
    rw [List.foldl_cons, hstep]
    exact ih (fun e' he' => h e' (by simp [he']))

/-- C6: (i) a terminal request ignores every later event, so at most one
resolution ever occurs; (ii) a reply carrying the request's correlation id
that arrives while the request is pending resolves it exactly once with that
reply, removing the `PendingRequest` and the transient reply-subscription,
and later events — duplicate matching replies included — are ignored; an
echoing responder therefore hands the request's payload back; (iii) if no
matching reply arrives before the deadline, deadline expiry rejects exactly
once with the timeout and removes both bookkeeping entries. -/
theorem request_reply_lifecycle (cid : String) (deadline : Nat)
    (pre post : List RREvent) (r : Message) :
    (∀ (s : RRState) (e : RREvent), s.st ≠ .pending →
      rrStep cid deadline s e = s) ∧
    ((∀ e ∈ pre, resolvesNow cid deadline e = false) →
      r.correlationId = some cid →
      rrRun cid deadline (pre ++ .reply r :: post) initialRequest
        = { st := .resolvedReply r, hasReplySub := false, hasPending := false,
            resolutions := [.resolvedReply r] } ∧
      (∀ P, r.payload = P →
        ∃ mr, (rrRun cid deadline (pre ++ .reply r :: post)
            initialRequest).st = .resolvedReply mr ∧ mr.payload = P)) ∧
    ((∀ e ∈ pre, resolvesNow cid deadline e = false) → ∀ T, deadline ≤ T →
      rrRun cid deadline (pre ++ .tick T :: post) initialRequest
        = { st := .timedOut, hasReplySub := false, hasPending := false,
            resolutions := [.timedOut] }) := by
  refine ⟨rrStep_absorb cid deadline, ?_, ?_⟩
  · intro hpre hcid
    have hend : rrRun cid deadline (pre ++ .reply r :: post) initialRequest
        = { st := .resolvedReply r, hasReplySub := false, hasPending := false,
            resolutions := [.resolvedReply r] } := by
      unfold rrRun
      rw [List.foldl_append]
      have h1 : pre.foldl (rrStep cid deadline) initialRequest
          = initialRequest := rrRun_nonResolving cid deadline pre _ rfl hpre
      rw [h1, List.foldl_cons]
      have h2 : rrStep cid deadline initialRequest (.reply r)
          = { st := .resolvedReply r, hasReplySub := false,
              hasPending := false, resolutions := [.resolvedReply r] } := by
        unfold rrStep initialRequest
        simp [hcid]
      rw [h2]
      exact rrRun_absorb cid deadline post _ (by simp)
    exact ⟨hend, fun P hP => ⟨r, by rw [hend], hP⟩⟩
  · intro hpre T hT
    unfold rrRun
    rw [List.foldl_append]
    have h1 : pre.foldl (rrStep cid deadline) initialRequest
        = initialRequest := rrRun_nonResolving cid deadline pre _ rfl hpre
    rw [h1, List.foldl_cons]
    have h2 : rrStep cid deadline initialRequest (.tick T)
        = { st := .timedOut, hasReplySub := false, hasPending := false,
            resolutions := [.timedOut] } := by
      unfold rrStep initialRequest
      simp [hT]
    rw [h2]
    exact rrRun_absorb cid deadline post _ (by simp)

/-- C6 witness: a matching reply followed by a duplicate resolves exactly
once with the first reply. -/
theorem request_reply_lifecycle_witness :
    rrRun "c1" 100
      [.reply { topic := "pan:$reply", payload := ⟨.num 1, ⟨[]⟩⟩,
                correlationId := some "c1" },
       .reply { topic := "pan:$reply", payload := ⟨.num 2, ⟨[]⟩⟩,
                correlationId := some "c1" }] initialRequest
      = { st := .resolvedReply ({ topic := "pan:$reply",
                                     payload := ⟨.num 1, ⟨[]⟩⟩,
                                     correlationId := some "c1" } : Message),
          hasReplySub := false, hasPending := false,
          resolutions := [.resolvedReply ({ topic := "pan:$reply",
                                            payload := ⟨.num 1, ⟨[]⟩⟩,
                                            correlationId := some "c1" } :
                                              Message)] } :=
  ((request_reply_lifecycle "c1" 100 []
    [.reply { topic := "pan:$reply", payload := ⟨.num 2, ⟨[]⟩⟩,
              correlationId := some "c1" }]
    { topic := "pan:$reply", payload := ⟨.num 1, ⟨[]⟩⟩,
      correlationId := some "c1" }).2.1
    (fun e he => absurd he (List.not_mem_nil e)) rfl).1

/-! ### Retained replay at subscribe time -/

/-- A successful `get` exhibits the entry itself. -/
theorem RetainedStore.get_mem (s : RetainedStore) (X : String) (m : Message)
    (h : s.get X = some m) : (X, m) ∈ s.entries := by
  unfold RetainedStore.get at h
  cases hfind : s.entries.find? (fun e => decide (e.1 = X)) with
  | none => rw [hfind] at h; exact absurd h (by simp)
  | some e =>
    rw [hfind] at h
    have hmem := List.mem_of_find?_eq_some hfind
    have hpred := List.find?_some hfind
    simp only [decide_eq_true_eq] at hpred
    have h2 : e.2 = m := by simpa using h
    have : e = (X, m) := Prod.ext hpred h2
    rwa [this] at hmem

/-- In a store whose topics are distinct and whose messages carry their own
topic, a retained message occurs exactly once among the stored messages. -/
theorem count_snd_eq_one (l : List (String × Message)) (X : String)
    (m : Message) (hnd : (l.map Prod.fst).Nodup)
    (htop : ∀ e ∈ l, e.2.topic = e.1) (hmem : (X, m) ∈ l) :
    (l.map Prod.snd).count m = 1 := by
  have hmt : m.topic = X := htop (X, m) hmem
  induction l with
  | nil => exact absurd hmem (List.not_mem_nil _)
  | cons e rest ih =>
    simp only [List.map_cons, List.nodup_cons] at hnd
    rcases List.mem_cons.mp hmem with heq | hrest
    · -- head is the retained entry: no other entry can hold the same message
      subst heq
      rw [List.map_cons, List.count_cons_self]
      have hnot : m ∉ rest.map Prod.snd := by
        intro hm
        rcases List.mem_map.mp hm with ⟨e', he', he2⟩
        have h1 : e'.1 = X := by
          rw [← htop e' (List.mem_cons_of_mem _ he'), he2, hmt]
        have h2 : X ∈ rest.map Prod.fst := by
          have h3 := List.mem_map_of_mem Prod.fst he'
          rwa [h1] at h3
        exact hnd.1 h2
      rw [List.count_eq_zero.mpr hnot]
    · -- the retained entry is in the tail; the head holds another message
      have hne : e.2 ≠ m := by
        intro h2
        have h1 : e.1 = X := by
          rw [← htop e (List.mem_cons_self e rest), h2, hmt]
        have : e = (X, m) := Prod.ext h1 h2
        rw [this] at hnd
        exact hnd.1 (List.mem_map_of_mem Prod.fst hrest)
      rw [List.map_cons, List.count_cons_of_ne (fun h => hne h.symm)]
      exact ih hnd.2 (fun e' he' => htop e' (List.mem_cons_of_mem _ he')) hrest

/-- C5: subscribing with `wantsRetained = true` replays the matching retained
messages synchronously inside the subscribe call, before the subscription is
appended to the live delivery set.  Consequently a retained message on topic
X present at subscribe time is delivered to the new subscriber exactly once
(so a retained publish racing ahead of the subscribe is not lost and not
duplicated), and any message published to X after the subscribe reaches the
new subscriber exactly once, strictly after the replayed message. -/
theorem subscribe_retained_replay (b : Broker) (pats : List String)
    (X : String) (m : Message) (hwf : b.Wf)
    (hacc : b.config.allowGlobalWildcard = true ∨ "*" ∉ pats)
    (hget : b.store.get X = some m)
    (hmatch : pats.any (fun p => topicMatches X p) = true) :
    m ∈ (b.subscribe pats true).1.deliveredTo b.nextSid ∧
    ((b.subscribe pats true).1.deliveredTo b.nextSid).count m = 1 ∧
    (b.subscribe pats true).1.subs = b.subs ++ [⟨b.nextSid, pats, true⟩] ∧
    (∀ (pid : String) (t : Nat) (msg2 : Message), msg2.topic = X →
      validate b.config msg2 = none →
      ((b.subscribe pats true).1.admitNow pid t).2 = true →
      ((b.subscribe pats true).1.publish pid t msg2).deliveredTo b.nextSid
          = (b.subscribe pats true).1.deliveredTo b.nextSid ++ [msg2] ∧
        ((∀ e ∈ b.store.entries, e.2 ≠ msg2) →
          (((b.subscribe pats true).1.publish pid t msg2).deliveredTo
              b.nextSid).count msg2 = 1)) := by
  obtain ⟨hsids, hdels, hnd, htop⟩ := hwf
  have hc : ¬ ((!b.config.allowGlobalWildcard && pats.contains "*") = true) := by
    rcases hacc with h | h <;> simp [h]
  have hsubsEq : (b.subscribe pats true).1.subs
      = b.subs ++ [⟨b.nextSid, pats, true⟩] := by
    unfold Broker.subscribe
    rw [if_neg hc]
  have hdelsEq : (b.subscribe pats true).1.deliveries
      = b.deliveries ++
        (b.store.entries.filter
          (fun e => pats.any (fun p => topicMatches e.1 p))).map
            (fun e => (b.nextSid, e.2)) := by
    unfold Broker.subscribe
    rw [if_neg hc]
    simp [RetainedStore.replayMatching]
  have hcfgEq : (b.subscribe pats true).1.config = b.config := by
    unfold Broker.subscribe
    rw [if_neg hc]
  have hfilterOld : b.deliveries.filter
      (fun d => decide (d.1 = b.nextSid)) = [] := by
    rw [List.filter_eq_nil]
    intro d hd
    have := hdels d hd
    simp only [decide_eq_true_eq]
    omega
  have hdto : (b.subscribe pats true).1.deliveredTo b.nextSid
      = (b.store.entries.filter
          (fun e => pats.any (fun p => topicMatches e.1 p))).map Prod.snd := by
    unfold Broker.deliveredTo
    rw [hdelsEq, List.filter_append, hfilterOld, List.nil_append]
    have hkeep : ((b.store.entries.filter
          (fun e => pats.any (fun p => topicMatches e.1 p))).map
            (fun e => (b.nextSid, e.2))).filter
          (fun d => decide (d.1 = b.nextSid))
        = (b.store.entries.filter
            (fun e => pats.any (fun p => topicMatches e.1 p))).map
              (fun e => (b.nextSid, e.2)) := by
      rw [List.filter_eq_self]
      intro a ha
      rcases List.mem_map.mp ha with ⟨e, -, rfl⟩
      simp
    rw [hkeep, List.map_map]
    rfl
  have hmem1 : (X, m) ∈ b.store.entries := RetainedStore.get_mem _ _ _ hget
  have hmemHit : (X, m) ∈ b.store.entries.filter
      (fun e => pats.any (fun p => topicMatches e.1 p)) :=
    List.mem_filter.mpr ⟨hmem1, by simpa using hmatch⟩
  refine ⟨?_, ?_, hsubsEq, ?_⟩
  · rw [hdto]
    exact List.mem_map_of_mem Prod.snd hmemHit
  · rw [hdto]
    refine count_snd_eq_one _ X m ?_ ?_ hmemHit
    · exact ((List.filter_sublist _).map Prod.fst).nodup hnd
    · intro e he
      exact htop e (List.mem_of_mem_filter he)
  · intro pid t msg2 hX hv hadm
    have hv1 : validate (b.subscribe pats true).1.config msg2 = none := by
      rw [hcfgEq]; exact hv
    obtain ⟨ht2, hres2⟩ := validate_none_topic b.config msg2 hv
    have h1 : msg2.topic ≠ "pan:sys.stats" := by
      intro h; rw [h] at hres2
      exact (by decide : strStartsWith "pan:sys.stats" "pan:" ≠ false) hres2
    have h2 : msg2.topic ≠ "pan:sys.clear-retained" := by
      intro h; rw [h] at hres2
      exact (by decide : strStartsWith "pan:sys.clear-retained" "pan:" ≠ false)
        hres2
    have hms : (b.subscribe pats true).1.matchingSubs msg2.topic
        = (b.subs.filter
            (fun s => s.patterns.any (fun p => topicMatches msg2.topic p)))
          ++ [⟨b.nextSid, pats, true⟩] := by
      unfold Broker.matchingSubs
      rw [hsubsEq, List.filter_append]
      congr 1
      rw [List.filter_cons]
      simp only [hX]
      rw [if_pos (by simpa using hmatch)]
      rfl
    have hpubDel : ((b.subscribe pats true).1.publish pid t msg2).deliveries
        = (b.subscribe pats true).1.deliveries ++
          ((b.subscribe pats true).1.matchingSubs msg2.topic).map
            (fun s => (s.sid, msg2)) := by
      unfold Broker.publish
      rw [if_neg h1, if_neg h2, hv1]
      cases hA : (b.subscribe pats true).1.admitNow pid t with
      | mk rt fl =>
        rw [hA] at hadm
        have hfl : fl = true := hadm
        subst hfl
        simp
    have hdto2 : ((b.subscribe pats true).1.publish pid t
          msg2).deliveredTo b.nextSid
        = (b.subscribe pats true).1.deliveredTo b.nextSid ++ [msg2] := by
      unfold Broker.deliveredTo
      rw [hpubDel, List.filter_append, List.map_append]
      congr 1
      rw [hms, List.map_append, List.filter_append]
      have hold : ((b.subs.filter
            (fun s => s.patterns.any (fun p => topicMatches msg2.topic p))).map
              (fun s => (s.sid, msg2))).filter
            (fun d => decide (d.1 = b.nextSid)) = [] := by
        rw [List.filter_eq_nil]
        intro d hd
        rcases List.mem_map.mp hd with ⟨s, hs, rfl⟩
        have := hsids s (List.mem_of_mem_filter hs)
        simp only [decide_eq_true_eq]
        omega
      rw [hold, List.nil_append]
      simp
    refine ⟨hdto2, ?_⟩
    intro hfresh
    rw [hdto2, List.count_append, hdto]
    have hzero : ((b.store.entries.filter
          (fun e => pats.any (fun p => topicMatches e.1 p))).map
            Prod.snd).count msg2 = 0 := by
      rw [List.count_eq_zero]
      intro hm
      rcases List.mem_map.mp hm with ⟨e, he, he2⟩
      exact hfresh e (List.mem_of_mem_filter he) he2
    rw [hzero]
    simp

/-- C5 witness: a retained message on `users.list` is replayed to a new
`users.*` subscriber during the subscribe call. -/
theorem subscribe_retained_replay_witness :
    ({ topic := "users.list", payload := ⟨.null, ⟨[]⟩⟩ } : Message) ∈
      (({ Broker.init {} with
            store := { entries := [("users.list",
                         { topic := "users.list",
                           payload := ⟨.null, ⟨[]⟩⟩ })],
                       maxRetained := 1000, evicted := 0 } } : Broker).subscribe
        ["users.*"] true).1.deliveredTo 0 :=
  (subscribe_retained_replay
    ({ Broker.init {} with
         store := { entries := [("users.list",
                      { topic := "users.list",
                        payload := ⟨.null, ⟨[]⟩⟩ })],
                    maxRetained := 1000, evicted := 0 } })
    ["users.*"] "users.list"
    { topic := "users.list", payload := ⟨.null, ⟨[]⟩⟩ }
    ⟨by decide, by decide, by decide, by decide⟩ (Or.inl rfl) (by decide)
    (by decide)).1

end Pan
